import Mathlib

/-!
Verification of the metadata-ingestion layer of the vcpkg package manager
(`src/vcpkg/paragraphs.cpp`): the control-file paragraph grammar, the field
extraction protocol, the dependency-specifier list grammars, and the package
directory / multi-registry batch loaders.

The C++ code is shallowly embedded as executable Lean functions.  The scanner
(`ParserBase` from `base/parse.h`), the item parsers (`parse_feature_name`,
`parse_qualified_specifier`) and the external record constructors are not part
of the sampled source; those are modelled from the specification and marked as
such in their doc comments.  Everything actually present in
`src/vcpkg/paragraphs.cpp` is translated line by line.
-/

namespace Vcpkg

/-- Source position, 1-based, used for diagnostics (`TextRowCol` in the source). -/
structure TextRowCol where
  row : Nat
  col : Nat
deriving DecidableEq, Repr

/-- A recorded parse diagnostic: message plus the row/column it was raised at. -/
structure PError where
  message : String
  row : Nat
  col : Nat
deriving DecidableEq, Repr

/-- Modelled from the spec (§4.1 Position-Tracked Text Scanner): a minimal
stateful cursor over a text buffer tracking row/column and accumulating at most
one diagnostic per parse attempt.  This stands in for the external `ParserBase`
(`base/parse.h`), which is not part of the sampled source. -/
structure PState where
  text : List Char
  row : Nat
  col : Nat
  err : Option PError
deriving DecidableEq, Repr

/-- Peek the current character; `none` models the end-of-input sentinel. -/
def cur (s : PState) : Option Char := s.text.head?

def at_eof (s : PState) : Bool := s.text.isEmpty

/-- Modelled from the spec: advancing one character tracks row/column; a
newline begins a new row. -/
def advance (s : PState) : PState :=
  match s.text with
  | [] => s
  | c :: rest =>
    if c = '\n' then { s with text := rest, row := s.row + 1, col := 1 }
    else { s with text := rest, col := s.col + 1 }

/-- Modelled from the spec: at most one diagnostic is recorded and the first
call to add-error wins; the scanner then jumps to end-of-input so that a failed
parse attempt stops (the parsing loops in the source rely on this to
terminate). -/
def add_error_at (s : PState) (msg : String) (row col : Nat) : PState :=
  { s with
    text := [],
    err := match s.err with
           | some e => some e
           | none => some ⟨msg, row, col⟩ }

/-- Add an error at the scanner's current position. -/
def add_error (s : PState) (msg : String) : PState := add_error_at s msg s.row s.col

/-- Consume a maximal run of characters satisfying `p`, starting from the raw
components of the scanner state; returns the consumed run, the remaining text
and the updated row/column. -/
def run_match (p : Char → Bool) : List Char → Nat → Nat → List Char × List Char × Nat × Nat
  | [], r, c => ([], [], r, c)
  | ch :: rest, r, c =>
    if p ch then
      let res := run_match p rest (if ch = '\n' then r + 1 else r) (if ch = '\n' then 1 else c + 1)
      (ch :: res.1, res.2)
    else ([], ch :: rest, r, c)

/-- Modelled from the spec: consume a maximal run matching a character
predicate, returning the consumed text (`match_zero_or_more` / `match_until`
of the external scanner). -/
def match_while (p : Char → Bool) (s : PState) : List Char × PState :=
  let res := run_match p s.text s.row s.col
  (res.1, { s with text := res.2.1, row := res.2.2.1, col := res.2.2.2 })

def is_lineend_char (c : Char) : Bool := c == '\r' || c == '\n'

/-- Line-end test on the peeked character; end-of-input counts as a line end
(as with the external scanner's end-of-file sentinel). -/
def is_lineend (oc : Option Char) : Bool :=
  match oc with
  | none => true
  | some c => is_lineend_char c

def is_whitespace (c : Char) : Bool := c == ' ' || c == '\t' || c == '\r' || c == '\n'

def is_tab_space (c : Char) : Bool := c == ' ' || c == '\t'

def is_alphanumdash (c : Char) : Bool := c.isAlpha || c.isDigit || c == '-'

def skip_whitespace (s : PState) : PState := (match_while is_whitespace s).2

/-- Skip a run of tabs and spaces, returning the skipped run (the source's
`skip_tabs_spaces` returns the matched `StringView`). -/
def skip_tabs_spaces (s : PState) : List Char × PState := match_while is_tab_space s

def match_until_lineend (s : PState) : List Char × PState :=
  match_while (fun c => !is_lineend_char c) s

/-- Modelled from the spec: a line-ending sequence (`\r`, `\n` or `\r\n`) is
recognized as a single logical newline. -/
def skip_newline (s : PState) : PState :=
  let s1 := if cur s = some '\r' then advance s else s
  if cur s1 = some '\n' then advance s1 else s1

def skip_line (s : PState) : PState := skip_newline (match_until_lineend s).2

/-- A parsed paragraph: field name to (value, position), in document order.
The source uses `std::map`; the association list stands in for it (the parser
rejects duplicate keys, see `get_paragraph`). -/
abbrev Paragraph := List (String × String × TextRowCol)

/-- `PghParser::get_fieldvalue`: the current line to end-of-line is part of the
value; each following line beginning with a space continues the value, joined
by a newline followed by the whole skipped run of tabs/spaces; a continuation
line that is blank after the whitespace run is a grammar error.  Fuel-based:
every recursive step consumes at least one character, so `text.length + 1`
fuel suffices. -/
def get_fieldvalue : Nat → PState → List Char → List Char × PState
  | 0, s, acc => (acc, s)
  | fuel + 1, s, acc =>
    let ml := match_until_lineend s
    let acc1 := acc ++ ml.1
    let s1 := skip_newline ml.2
    if cur s1 ≠ some ' ' then (acc1, s1)
    else
      let sp := skip_tabs_spaces s1
      if is_lineend (cur sp.2) then
        (acc1, add_error sp.2 "unexpected end of line, to span a blank line use \"  .\"")
      else get_fieldvalue fuel sp.2 (acc1 ++ '\n' :: sp.1)

/-- `PghParser::get_fieldname`: one or more alphanumeric/dash characters;
zero characters is the error "expected fieldname". -/
def get_fieldname (s : PState) : List Char × PState :=
  let m := match_while is_alphanumdash s
  if m.1.isEmpty then (m.1, add_error m.2 "expected fieldname")
  else m

/-- `PghParser::get_paragraph`: fields until a blank line; `#` lines are
comments; the field name must be followed by `:`; a field name already present
is the error "duplicate field" at the new occurrence's position. -/
def get_paragraph : Nat → PState → Paragraph → Paragraph × PState
  | 0, s, fields => (fields, s)
  | fuel + 1, s, fields =>
    if cur s = some '#' then
      let s1 := skip_line s
      if is_lineend (cur s1) then (fields, s1) else get_paragraph fuel s1 fields
    else
      let locRow := s.row
      let locCol := s.col
      let fn := get_fieldname s
      let fieldname : String := ⟨fn.1⟩
      let s1 := fn.2
      if cur s1 ≠ some ':' then (fields, add_error s1 "expected ':' after field name")
      else if fields.any (fun f => f.1 == fieldname) then
        (fields, add_error_at s1 "duplicate field" locRow locCol)
      else
        let s2 := advance s1
        let sp := skip_tabs_spaces s2
        let s3 := sp.2
        let rowcol : TextRowCol := ⟨s3.row, s3.col⟩
        let fv := get_fieldvalue (s3.text.length + 1) s3 []
        let fields1 := fields ++ [(fieldname, (⟨fv.1⟩ : String), rowcol)]
        let s4 := fv.2
        if is_lineend (cur s4) then (fields1, s4) else get_paragraph fuel s4 fields1

/-- The loop of `PghParser::get_paragraphs`: paragraphs separated by blank
lines until end of input. -/
def get_paragraphs_loop : Nat → PState → List Paragraph → List Paragraph × PState
  | 0, s, acc => (acc, s)
  | fuel + 1, s, acc =>
    if at_eof s then (acc, s)
    else
      let pr := get_paragraph (s.text.length + 1) s []
      let s1 := (match_while is_lineend_char pr.2).2
      get_paragraphs_loop fuel s1 (acc ++ [pr.1])

/-- Modelled from the spec: diagnostic formatting includes source name, row,
column and message (the external `IParseError::format`). -/
def format_error (origin : String) (e : PError) : String :=
  origin ++ ":" ++ toString e.row ++ ":" ++ toString e.col ++ ": error: " ++ e.message

/-- `parse_paragraphs` / `PghParser::get_paragraphs`: the whole document as a
sequence of paragraphs, or the first grammar error, formatted. -/
def parse_paragraphs (str : String) (origin : String) : Except String (List Paragraph) :=
  let s0 : PState := ⟨str.data, 1, 1, none⟩
  let s1 := skip_whitespace s0
  let pr := get_paragraphs_loop (s1.text.length + 1) s1 []
  match pr.2.err with
  | some e => .error (format_error origin e)
  | none => .ok pr.1

/-! ## The comma-separated list combinator and the three list grammars -/

/-- The loop of `parse_list_until_eof`: parse an item, then expect `,` (and a
further item) or end of text.  Fuel-based; every successfully parsed item of
the concrete item grammars consumes at least one character. -/
def parse_list_loop {α : Type} (plural : String) (f : PState → Option α × PState) :
    Nat → PState → List α → Option (List α) × PState
  | 0, s, _ => (none, s)
  | fuel + 1, s, acc =>
    let r := f s
    match r.1 with
    | none => (none, r.2)
    | some item =>
      let acc1 := acc ++ [item]
      let s1 := skip_whitespace r.2
      if at_eof s1 then (some acc1, s1)
      else if cur s1 ≠ some ',' then
        (none, add_error s1 ("expected ',' or end of text in " ++ plural ++ " list"))
      else
        let s2 := skip_whitespace (advance s1)
        parse_list_loop plural f fuel s2 acc1

/-- `parse_list_until_eof<T>`: leading whitespace is skipped, an empty input
yields the empty list, otherwise items separated by commas until end of
text. -/
def parse_list_until_eof {α : Type} (plural : String) (f : PState → Option α × PState)
    (s : PState) : Option (List α) × PState :=
  let s1 := skip_whitespace s
  if at_eof s1 then (some [], s1)
  else parse_list_loop plural f (s1.text.length + 1) s1 []

def is_feature_name_char (c : Char) : Bool := c.isLower || c.isDigit || c == '-'

/-- Modelled from the spec (§4.4): the external item parser
`parse_feature_name` — a bare feature-name token; an empty token is that
item's error. -/
def parse_feature_name (s : PState) : Option String × PState :=
  let m := match_while is_feature_name_char s
  if m.1.isEmpty then (none, add_error m.2 "expected feature name")
  else (some (⟨m.1⟩ : String), m.2)

/-- A parsed qualified specifier:
`name [ '[' feature,... ']' ] [ ':' triplet ] [ platform-condition ]`.
The platform condition is an opaque pass-through payload (spec §3), modelled
as the raw text between the parentheses. -/
structure ParsedQualifiedSpecifier where
  name : String
  features : Option (List String)
  triplet : Option String
  platform : Option String
deriving DecidableEq, Repr

def is_package_name_char (c : Char) : Bool := c.isLower || c.isDigit || c == '-'

/-- Modelled from the spec: the bracketed feature list of a qualified
specifier — feature names separated by commas, terminated by `]`. -/
def parse_feature_list_brackets : Nat → PState → List String → Option (List String) × PState
  | 0, s, _ => (none, s)
  | fuel + 1, s, acc =>
    let r := parse_feature_name s
    match r.1 with
    | none => (none, r.2)
    | some f =>
      let acc1 := acc ++ [f]
      let s1 := r.2
      if cur s1 = some ',' then parse_feature_list_brackets fuel (advance s1) acc1
      else if cur s1 = some ']' then (some acc1, advance s1)
      else (none, add_error s1 "expected ',' or ']' in feature list")

/-- Modelled from the spec (§4.4): the external item parser
`parse_qualified_specifier` — a package name, an optional bracketed feature
list, an optional `:`-prefixed triplet, and an optional parenthesized platform
condition. -/
def parse_qualified_specifier (s : PState) : Option ParsedQualifiedSpecifier × PState :=
  let m := match_while is_package_name_char s
  if m.1.isEmpty then (none, add_error m.2 "expected package name")
  else
    let pname : String := ⟨m.1⟩
    let s1 := m.2
    let fr : Option (Option (List String)) × PState :=
      if cur s1 = some '[' then
        let r := parse_feature_list_brackets (s1.text.length + 1) (advance s1) []
        match r.1 with
        | none => (none, r.2)
        | some fs => (some (some fs), r.2)
      else (some none, s1)
    match fr.1 with
    | none => (none, fr.2)
    | some features =>
      let s2 := fr.2
      let tr : Option (Option String) × PState :=
        if cur s2 = some ':' then
          let mt := match_while is_alphanumdash (advance s2)
          if mt.1.isEmpty then (none, add_error mt.2 "expected triplet")
          else (some (some (⟨mt.1⟩ : String)), mt.2)
        else (some none, s2)
      match tr.1 with
      | none => (none, tr.2)
      | some triplet =>
        let s3 := skip_whitespace tr.2
        if cur s3 = some '(' then
          let mp := match_while (fun c => !(c == ')')) (advance s3)
          if at_eof mp.2 then (none, add_error mp.2 "expected ')'")
          else (some ⟨pname, features, triplet, some (⟨mp.1⟩ : String)⟩, advance mp.2)
        else (some ⟨pname, features, triplet, none⟩, s3)

/-- A dependency: a qualified specifier narrowed by forbidding the triplet.
`platform = none` models the empty platform expression
(`pqs.platform.value_or({})` in the source). -/
structure Dependency where
  name : String
  features : List String
  platform : Option String
deriving DecidableEq, Repr

/-- `parse_default_features_list`: feature names separated by commas. -/
def parse_default_features_list (str : String) (origin : String) (textrowcol : TextRowCol) :
    Except String (List String) :=
  let s0 : PState := ⟨str.data, textrowcol.row, textrowcol.col, none⟩
  let r := parse_list_until_eof "default features" parse_feature_name s0
  match r.1 with
  | none => .error (format_error origin (r.2.err.getD ⟨"", 0, 0⟩))
  | some xs => .ok xs

/-- `parse_qualified_specifier_list`: qualified specifiers separated by
commas; the triplet is permitted.  The source passes "dependencies" as the
list kind. -/
def parse_qualified_specifier_list (str : String) (origin : String) (textrowcol : TextRowCol) :
    Except String (List ParsedQualifiedSpecifier) :=
  let s0 : PState := ⟨str.data, textrowcol.row, textrowcol.col, none⟩
  let r := parse_list_until_eof "dependencies" parse_qualified_specifier s0
  match r.1 with
  | none => .error (format_error origin (r.2.err.getD ⟨"", 0, 0⟩))
  | some xs => .ok xs

/-- The per-item parser of `parse_dependencies_list` (the lambda in the
source): a qualified specifier whose triplet, if present, is the error
"triplet specifier not allowed in this context" at the item's starting
location; otherwise converted to a `Dependency` with features defaulting to
the empty list and the platform defaulting to the empty expression. -/
def parse_dependency_item (s : PState) : Option Dependency × PState :=
  let locRow := s.row
  let locCol := s.col
  let r := parse_qualified_specifier s
  match r.1 with
  | none => (none, r.2)
  | some pqs =>
    if pqs.triplet.isSome then
      (none, add_error_at r.2 "triplet specifier not allowed in this context" locRow locCol)
    else (some ⟨pqs.name, pqs.features.getD [], pqs.platform⟩, r.2)

/-- `parse_dependencies_list`: dependencies separated by commas; a triplet on
any item is rejected. -/
def parse_dependencies_list (str : String) (origin : String) (textrowcol : TextRowCol) :
    Except String (List Dependency) :=
  let s0 : PState := ⟨str.data, textrowcol.row, textrowcol.col, none⟩
  let r := parse_list_until_eof "dependencies" parse_dependency_item s0
  match r.1 with
  | none => .error (format_error origin (r.2.err.getD ⟨"", 0, 0⟩))
  | some xs => .ok xs

/-! ## The field extraction protocol (`ParagraphParser`) -/

/-- Schema-level parse error (`ParseControlErrorInfo`).  The source stores the
extra/missing field lists in a map under the constant key "CONTROL"; the lists
are embedded directly. -/
structure ParseControlErrorInfo where
  name : String := ""
  error : String := ""
  extra_fields : List String := []
  missing_fields : List String := []
  expected_types : List String := []
deriving DecidableEq, Repr

/-- The extraction state: the remaining (unconsumed) fields of one paragraph,
the names recorded missing, and the registered type-hint notes. -/
structure ParagraphParser where
  fields : Paragraph
  missing_fields : List String
  expected_types : List String
deriving DecidableEq, Repr

/-- `remove_field`: find and erase a field, returning its value/position. -/
def remove_field (fields : Paragraph) (fieldname : String) :
    Option (String × TextRowCol) × Paragraph :=
  match fields.find? (fun f => f.1 == fieldname) with
  | none => (none, fields)
  | some f => (some f.2, fields.eraseP (fun g => g.1 == fieldname))

/-- `ParagraphParser::required_field`: remove and return the field if present,
otherwise record the name as missing and return the empty default. -/
def required_field (st : ParagraphParser) (fieldname : String) :
    (String × TextRowCol) × ParagraphParser :=
  match remove_field st.fields fieldname with
  | (some v, rest) => (v, { st with fields := rest })
  | (none, _) => (("", ⟨0, 0⟩), { st with missing_fields := st.missing_fields ++ [fieldname] })

/-- `ParagraphParser::optional_field`: remove and return the field if present,
otherwise return the empty default silently. -/
def optional_field (st : ParagraphParser) (fieldname : String) :
    (String × TextRowCol) × ParagraphParser :=
  match remove_field st.fields fieldname with
  | (some v, rest) => (v, { st with fields := rest })
  | (none, _) => (("", ⟨0, 0⟩), st)

/-- The key list of a paragraph (`Util::extract_keys`). -/
def extract_keys (fields : Paragraph) : List String := fields.map (fun f => f.1)

/-- `ParagraphParser::error_info`: a structured error when unconsumed fields
remain or required fields were missing, otherwise no error. -/
def error_info (st : ParagraphParser) (name : String) : Option ParseControlErrorInfo :=
  if !st.fields.isEmpty || !st.missing_fields.isEmpty then
    some { name := name,
           error := "",
           extra_fields := extract_keys st.fields,
           missing_fields := st.missing_fields,
           expected_types := st.expected_types }
  else none

/-! ## The package directory loader and the batch loaders -/

abbrev Path := String

/-- Modelled from the spec (§6 Filesystem collaborator): file reads, existence
checks and immediate-subdirectory listing, consumed through a narrow
interface. -/
structure Filesystem where
  read_contents : Path → Except String String
  exists_path : Path → Bool
  get_directories_non_recursive : Path → List Path

/-- An opaquely rendered JSON object (nothing in the sampled source inspects
its contents). -/
abbrev JObj := String

/-- The shape of a parsed JSON document: the source only asks whether the
top-level value is an object. -/
inductive JVal where
  | object (obj : JObj)
  | nonObject
deriving DecidableEq, Repr

/-- The outcome of loading one package directory: a record, a per-package
error, or the fatal stop (`Checks::check_exit` terminating the process). -/
inductive LoadPortResult (σ : Type) where
  | fatal (message : String)
  | err (info : ParseControlErrorInfo)
  | ok (scf : σ)
deriving DecidableEq, Repr

/-- Modelled from the spec (§6): the external collaborators of the loader —
the JSON document parser and the manifest/control record constructors, over an
abstract record type `σ`. -/
structure Externals (σ : Type) where
  json_parse : String → Except String JVal
  parse_manifest_object : Path → JObj → Except ParseControlErrorInfo σ
  parse_control_file : Path → List Paragraph → Except ParseControlErrorInfo σ

/-- Character walk for `filename`: the component after the last separator. -/
def filename_aux : List Char → List Char → List Char
  | [], acc => acc.reverse
  | c :: rest, acc => if c = '/' then filename_aux rest [] else filename_aux rest (c :: acc)

/-- The last path component (`Path::filename`). -/
def filename (p : Path) : String := ⟨filename_aux p.data []⟩

/-- `get_paragraphs(fs, control_path)`: read the file, then parse it. -/
def get_paragraphs (fs : Filesystem) (control_path : Path) : Except String (List Paragraph) :=
  match fs.read_contents control_path with
  | .error ec => .error ec
  | .ok contents => parse_paragraphs contents control_path

/-- `try_load_manifest_text`: parse the text as JSON, require a top-level
object, and hand it to the manifest record constructor. -/
def try_load_manifest_text {σ : Type} (ext : Externals σ) (text : String) (origin : Path) :
    LoadPortResult σ :=
  match ext.json_parse text with
  | .ok v =>
    match v with
    | .object obj =>
      match ext.parse_manifest_object origin obj with
      | .ok scf => .ok scf
      | .error e => .err e
    | .nonObject => .err { name := origin, error := "Manifest files must have a top-level object" }
  | .error msg => .err { name := origin, error := msg }

/-- The control-file / missing-file tail of `try_load_port` (the code the
source falls through to when the manifest is absent). -/
def try_load_port_control {σ : Type} (ext : Externals σ) (fs : Filesystem)
    (port_directory control_path : Path) (port_name : String) : LoadPortResult σ :=
  if fs.exists_path control_path then
    match get_paragraphs fs control_path with
    | .ok pghs =>
      match ext.parse_control_file control_path pghs with
      | .ok scf => .ok scf
      | .error e => .err e
    | .error msg => .err { name := port_name, error := msg }
  else if fs.exists_path port_directory then
    .err { name := port_name, error := "Failed to find either a CONTROL file or vcpkg.json file." }
  else
    .err { name := port_name, error := "The port directory (" ++ port_directory ++ ") does not exist" }

/-- `try_load_port`: if the manifest is readable, a coexisting CONTROL file is
the fatal stop, otherwise the manifest is parsed; if the manifest exists but
cannot be read, a per-package error; otherwise the CONTROL path.  (The
source's "Failed to load manifest" message is built with a single `%s`
placeholder consuming the path; the read error code's message is passed but
not formatted.) -/
def try_load_port {σ : Type} (ext : Externals σ) (fs : Filesystem) (port_directory : Path) :
    LoadPortResult σ :=
  let manifest_path := port_directory ++ "/vcpkg.json"
  let control_path := port_directory ++ "/CONTROL"
  let port_name := filename port_directory
  match fs.read_contents manifest_path with
  | .error _ =>
    if fs.exists_path manifest_path then
      .err { name := port_name,
             error := "Failed to load manifest file for port: " ++ manifest_path ++ "\n" }
    else try_load_port_control ext fs port_directory control_path port_name
  | .ok manifest_contents =>
    if fs.exists_path control_path then
      .fatal ("Found both manifest and CONTROL file in port " ++ port_directory ++
              "; please rename one or the other")
    else try_load_manifest_text ext manifest_contents manifest_path

/-- A binary control file over an abstract binary-paragraph type. -/
structure BinaryControlFile (β : Type) where
  core_paragraph : β
  features : List β
deriving DecidableEq, Repr

/-- `try_load_cached_package`: parse the CONTROL file of a package directory
and take its first paragraph as the core record.  The source accesses
`p->front()` with no emptiness check; the outer `none` marks exactly that
out-of-bounds access on an empty paragraph sequence.  `binary_paragraph` and
`spec_of` stand for the external `BinaryParagraph` constructor and its
`.spec` field. -/
def try_load_cached_package {β : Type} (binary_paragraph : Paragraph → β)
    (spec_of : β → String) (fs : Filesystem) (package_dir : Path) (spec : String) :
    Option (Except String (BinaryControlFile β)) :=
  match get_paragraphs fs (package_dir ++ "/CONTROL") with
  | .ok p =>
    match p with
    | [] => none
    | first :: rest =>
      let core := binary_paragraph first
      let bcf : BinaryControlFile β := ⟨core, rest.map binary_paragraph⟩
      if spec_of core ≠ spec then
        some (.error ("Mismatched spec in package at " ++ package_dir ++ ": expected " ++
                      spec ++ ", actual " ++ spec_of core))
      else some (.ok bcf)
  | .error e => some (.error e)

/-- Modelled from the spec (§6): one registry — its declared package names,
the names the default registry can enumerate, and the baseline-version path
lookup. -/
structure Registry where
  packages : List String
  all_port_names : List String
  get_path_to_baseline_version : String → Option Path

/-- Modelled from the spec (§6): the registry set. -/
structure RegistrySet where
  registries : List Registry
  default_registry : Option Registry
  registry_for_port : String → Option Registry

/-- Batch-load results: successful (record, path) pairs and per-package
errors. -/
structure LoadResults (σ : Type) where
  paragraphs : List (σ × Path)
  errors : List ParseControlErrorInfo
deriving DecidableEq, Repr

/-- Lexicographic comparison on character lists (the byte-wise
`std::string operator<`). -/
def chars_lt : List Char → List Char → Bool
  | _, [] => false
  | [], _ :: _ => true
  | a :: as, b :: bs =>
    if a.toNat < b.toNat then true
    else if b.toNat < a.toNat then false
    else chars_lt as bs

def string_lt (a b : String) : Bool := chars_lt a.data b.data

/-- Insertion into a sorted string list, for `Util::sort_unique_erase`. -/
def insert_sorted (x : String) : List String → List String
  | [] => [x]
  | y :: ys => if string_lt y x then y :: insert_sorted x ys else x :: y :: ys

def sort_strings (l : List String) : List String := l.foldr insert_sorted []

def dedup_sorted : List String → List String
  | [] => []
  | [x] => [x]
  | x :: y :: rest => if x = y then dedup_sorted (y :: rest) else x :: dedup_sorted (y :: rest)

/-- `Util::sort_unique_erase`: sort and deduplicate. -/
def sort_unique_erase (l : List String) : List String := dedup_sorted (sort_strings l)

/-- The candidate name set of `try_load_all_registry_ports`: every registry's
declared packages, plus the default registry's enumerable names, sorted and
deduplicated. -/
def candidate_ports (registries : RegistrySet) : List String :=
  let ports0 := registries.registries.foldl (fun acc reg => acc ++ reg.packages) []
  let ports1 := match registries.default_registry with
                | some reg => ports0 ++ reg.all_port_names
                | none => ports0
  sort_unique_erase ports1

/-- One step of the registry batch loop: resolve the owning registry and the
baseline path (skipping silently when either is absent), then load the port
directory, accumulating a success or an error; the fatal stop aborts the
whole run. -/
def load_registry_port {σ : Type} (ext : Externals σ) (fs : Filesystem)
    (registries : RegistrySet) (r : Except String (LoadResults σ)) (port_name : String) :
    Except String (LoadResults σ) :=
  match r with
  | .error m => .error m
  | .ok acc =>
    match registries.registry_for_port port_name with
    | none => .ok acc
    | some impl =>
      match impl.get_path_to_baseline_version port_name with
      | none => .ok acc
      | some p =>
        match try_load_port ext fs p with
        | .fatal m => .error m
        | .ok scf => .ok { acc with paragraphs := acc.paragraphs ++ [(scf, p)] }
        | .err e => .ok { acc with errors := acc.errors ++ [e] }

/-- `try_load_all_registry_ports`: fold the registry batch loop over the
candidate names.  The `Except.error` case models the process-terminating
`check_exit` inside `try_load_port`. -/
def try_load_all_registry_ports {σ : Type} (ext : Externals σ) (fs : Filesystem)
    (registries : RegistrySet) : Except String (LoadResults σ) :=
  (candidate_ports registries).foldl (load_registry_port ext fs registries) (.ok ⟨[], []⟩)

/-- The overlay directory list of `load_overlay_ports`: immediate
subdirectories, sorted, with `.DS_Store` entries removed. -/
def overlay_port_dirs (fs : Filesystem) (directory : Path) : List Path :=
  (sort_strings (fs.get_directories_non_recursive directory)).filter
    (fun d => filename d ≠ ".DS_Store")

/-- One step of the overlay batch loop. -/
def load_overlay_step {σ : Type} (ext : Externals σ) (fs : Filesystem)
    (r : Except String (LoadResults σ)) (path : Path) : Except String (LoadResults σ) :=
  match r with
  | .error m => .error m
  | .ok acc =>
    match try_load_port ext fs path with
    | .fatal m => .error m
    | .ok scf => .ok { acc with paragraphs := acc.paragraphs ++ [(scf, path)] }
    | .err e => .ok { acc with errors := acc.errors ++ [e] }

/-- The `LoadResults` accumulation of `load_overlay_ports` (the source builds
this value, prints the errors, and returns only the successes). -/
def load_overlay_ports_results {σ : Type} (ext : Externals σ) (fs : Filesystem)
    (directory : Path) : Except String (LoadResults σ) :=
  (overlay_port_dirs fs directory).foldl (load_overlay_step ext fs) (.ok ⟨[], []⟩)

/-- `load_overlay_ports`: the successes of the overlay batch. -/
def load_overlay_ports {σ : Type} (ext : Externals σ) (fs : Filesystem) (directory : Path) :
    Except String (List (σ × Path)) :=
  (load_overlay_ports_results ext fs directory).map (fun r => r.paragraphs)

/-! ## Outcome classifiers used to state the batch-loading properties -/

/-- The fatal-stop content of a load outcome, `none` for both non-fatal
outcomes. -/
def fatal_of {σ : Type} : LoadPortResult σ → Option String
  | .fatal m => some m
  | .err _ => none
  | .ok _ => none

/-- The success entry a directory contributes to a batch, if any. -/
def succ_entry {σ : Type} (ext : Externals σ) (fs : Filesystem) (path : Path) :
    Option (σ × Path) :=
  match try_load_port ext fs path with
  | .ok scf => some (scf, path)
  | _ => none

/-- The error entry a directory contributes to a batch, if any. -/
def err_entry {σ : Type} (ext : Externals σ) (fs : Filesystem) (path : Path) :
    Option ParseControlErrorInfo :=
  match try_load_port ext fs path with
  | .err e => some e
  | _ => none

/-- The baseline path a candidate name resolves to, `none` when no registry
owns the name or the owning registry has no baseline path (the two silently
skipped situations). -/
def reg_path (registries : RegistrySet) (n : String) : Option Path :=
  match registries.registry_for_port n with
  | none => none
  | some impl => impl.get_path_to_baseline_version n

/-- The success entry of a candidate name in the registry batch. -/
def reg_succ {σ : Type} (ext : Externals σ) (fs : Filesystem) (registries : RegistrySet)
    (n : String) : Option (σ × Path) :=
  match reg_path registries n with
  | none => none
  | some p => succ_entry ext fs p

/-- The error entry of a candidate name in the registry batch. -/
def reg_err {σ : Type} (ext : Externals σ) (fs : Filesystem) (registries : RegistrySet)
    (n : String) : Option ParseControlErrorInfo :=
  match reg_path registries n with
  | none => none
  | some p => err_entry ext fs p

/-! ## Text-shape helpers used to state the continuation property -/

/-- No carriage return or newline occurs in the run. -/
def lineend_free (l : List Char) : Bool := l.all (fun c => !is_lineend_char c)

/-- A well-formed continuation-line body: free of line ends, with at least one
character that is not a tab or space. -/
def good_cont (v : List Char) : Bool :=
  lineend_free v && v.any (fun c => !is_tab_space c)

/-- A well-formed field-value terminator: end of input, or a newline followed
by a line that does not begin with a space. -/
def good_term (d : List Char) : Bool :=
  match d with
  | [] => true
  | c :: t =>
    c == '\n' && (match t.head? with
                  | none => true
                  | some x => !(x == ' '))

/-- The raw text of a list of continuation lines followed by terminator `d`:
each line is a newline, the single-space marker, then the body. -/
def build_conts (conts : List (List Char)) (d : List Char) : List Char :=
  conts.foldr (fun v a => '\n' :: ' ' :: (v ++ a)) d

/-- The contribution of the continuation lines to the parsed field value: for
each line, a newline and the whole whitespace-led body. -/
def conts_value (conts : List (List Char)) : List Char := build_conts conts []

/-- What remains after the field-value terminator is consumed. -/
def term_rest (d : List Char) : List Char :=
  match d with
  | [] => []
  | _ :: t => t

/-- Row/column after consuming a run of characters. -/
def advance_pos (l : List Char) (r c : Nat) : Nat × Nat :=
  l.foldl (fun rc ch => if ch = '\n' then (rc.1 + 1, 1) else (rc.1, rc.2 + 1)) (r, c)

/-! ## Concrete fixtures for the witness theorems -/

/-- Record constructors that always succeed, over the trivial record type. -/
def extW : Externals Unit :=
  ⟨fun _ => .error "json error", fun _ _ => .ok (), fun _ _ => .ok ()⟩

/-- A filesystem on which every read succeeds and every path exists (so every
port directory holds both a manifest and a CONTROL file). -/
def fsBothW : Filesystem := ⟨fun _ => .ok "{}", fun _ => true, fun _ => []⟩

/-- A filesystem on which every path exists but no read succeeds. -/
def fsUnreadableW : Filesystem :=
  ⟨fun _ => .error "Permission denied", fun _ => true, fun _ => []⟩

/-- A filesystem whose directory `ov` has one loadable package directory and
one directory with no package description at all. -/
def fsOverlayW : Filesystem :=
  ⟨fun p => if p = "ov/good/CONTROL" then .ok "A: x\n" else .error "no such file",
   fun p => p = "ov/good/CONTROL" || p = "ov/bad" || p = "ov/good",
   fun p => if p = "ov" then ["ov/good", "ov/bad"] else []⟩

/-- A filesystem on which every CONTROL file reads as the empty document. -/
def fsEmptyW : Filesystem := ⟨fun _ => .ok "", fun _ => true, fun _ => []⟩

/-- A registry declaring `foo` but providing no baseline path for it. -/
def regFooW : Registry := ⟨["foo"], [], fun _ => none⟩

/-- A registry set in which `foo` is declared and owned by `regFooW`, which
returns no baseline-version path. -/
def regsFooW : RegistrySet :=
  ⟨[regFooW], none, fun n => if n = "foo" then some regFooW else none⟩

/-- A registry resolving `good` and `bad` to the two overlay directories of
`fsOverlayW` and declaring one further name without owning a baseline. -/
def regW : Registry :=
  ⟨["good", "bad", "unowned"], [],
   fun n => if n = "good" then some "ov/good" else if n = "bad" then some "ov/bad" else none⟩

/-- A registry set owning `good` and `bad` via `regW` and owning `unowned`
not at all. -/
def regsW : RegistrySet :=
  ⟨[regW], none, fun n => if n = "good" || n = "bad" then some regW else none⟩

/-- An extraction state with two remaining fields, one recorded-missing name
and one registered type note. -/
def stW : ParagraphParser :=
  ⟨[("F", "v", ⟨1, 4⟩), ("G", "w", ⟨2, 4⟩)], ["M"], ["T"]⟩

/-! ## Scanner lemmas -/

lemma advance_pos_cons (ch : Char) (l : List Char) (r c : Nat) :
    advance_pos (ch :: l) r c =
      advance_pos l (if ch = '\n' then r + 1 else r) (if ch = '\n' then 1 else c + 1) := by
  by_cases h : ch = '\n' <;> simp [advance_pos, List.foldl, h]

lemma run_match_append (p : Char → Bool) (l1 l2 : List Char) (r c : Nat)
    (h1 : ∀ x ∈ l1, p x = true)
    (h2 : ∀ x, l2.head? = some x → p x = false) :
    run_match p (l1 ++ l2) r c = (l1, l2, advance_pos l1 r c) := by
  induction l1 generalizing r c with
  | nil =>
    cases hl : l2 with
    | nil => simp [run_match, advance_pos]
    | cons x xs =>
      have hx := h2 x (by simp [hl])
      simp [hl, run_match, hx, advance_pos]
  | cons a l1 ih =>
    have ha := h1 a (List.mem_cons_self a l1)
    have hsub : ∀ x ∈ l1, p x = true := fun x hx => h1 x (List.mem_cons_of_mem a hx)
    simp only [List.cons_append, run_match, ha, if_true, advance_pos_cons, List.append_eq]
    rw [ih _ _ hsub]

lemma match_while_split (p : Char → Bool) (s : PState) (l1 l2 : List Char)
    (hs : s.text = l1 ++ l2)
    (h1 : ∀ x ∈ l1, p x = true)
    (h2 : ∀ x, l2.head? = some x → p x = false) :
    match_while p s =
      (l1, ⟨l2, (advance_pos l1 s.row s.col).1, (advance_pos l1 s.row s.col).2, s.err⟩) := by
  simp [match_while, hs, run_match_append p l1 l2 s.row s.col h1 h2]

lemma match_while_all (p : Char → Bool) (s : PState) (h : ∀ x ∈ s.text, p x = true) :
    match_while p s =
      (s.text,
       ⟨[], (advance_pos s.text s.row s.col).1, (advance_pos s.text s.row s.col).2, s.err⟩) :=
  match_while_split p s s.text [] (by simp) h (by simp)

lemma match_while_none (p : Char → Bool) (s : PState)
    (h : ∀ x, s.text.head? = some x → p x = false) :
    match_while p s = ([], ⟨s.text, s.row, s.col, s.err⟩) := by
  have := match_while_split p s [] s.text (by simp) (by simp) h
  simpa [advance_pos] using this

/-- Claim C9: every input consisting only of whitespace (including the empty
string) makes each of the three list parsers succeed with the empty list. -/
theorem c9_whitespace_only_yields_empty_list :
    ∀ (str origin : String) (rc : TextRowCol),
      (∀ c ∈ str.data, is_whitespace c = true) →
      parse_default_features_list str origin rc = .ok [] ∧
      parse_qualified_specifier_list str origin rc = .ok [] ∧
      parse_dependencies_list str origin rc = .ok [] := by
  intro str origin rc h
  have hsk : skip_whitespace ⟨str.data, rc.row, rc.col, none⟩ =
      ⟨[], (advance_pos str.data rc.row rc.col).1, (advance_pos str.data rc.row rc.col).2,
       none⟩ := by
    simp [skip_whitespace, match_while_all is_whitespace ⟨str.data, rc.row, rc.col, none⟩ h]
  refine ⟨?_, ?_, ?_⟩ <;>
    simp [parse_default_features_list, parse_qualified_specifier_list, parse_dependencies_list,
          parse_list_until_eof, hsk, at_eof]

/-- Witness for C9 at the concrete whitespace input `" \t\n"`. -/
theorem c9_whitespace_only_yields_empty_list_witness :
    parse_default_features_list " \t\n" "o" ⟨1, 1⟩ = .ok [] ∧
    parse_qualified_specifier_list " \t\n" "o" ⟨1, 1⟩ = .ok [] ∧
    parse_dependencies_list " \t\n" "o" ⟨1, 1⟩ = .ok [] :=
  c9_whitespace_only_yields_empty_list " \t\n" "o" ⟨1, 1⟩ (by decide)

/-- Claim C1 (amended): whenever the manifest file of a package directory is
readable and a CONTROL file also exists there, `try_load_port` returns the
fatal stop (and hence never a per-package error) for that directory. -/
theorem c1_manifest_and_control_fatal :
    ∀ (σ : Type) (ext : Externals σ) (fs : Filesystem) (dir : Path) (contents : String),
      fs.read_contents (dir ++ "/vcpkg.json") = .ok contents →
      fs.exists_path (dir ++ "/CONTROL") = true →
      try_load_port ext fs dir =
        .fatal ("Found both manifest and CONTROL file in port " ++ dir ++
                "; please rename one or the other") := by
  intro σ ext fs dir contents hread hexists
  simp [try_load_port, hread, hexists]

/-- Witness for C1 on a filesystem where both files exist and the manifest is
readable. -/
theorem c1_manifest_and_control_fatal_witness :
    try_load_port extW fsBothW "port" =
      .fatal ("Found both manifest and CONTROL file in port " ++ "port" ++
              "; please rename one or the other") :=
  c1_manifest_and_control_fatal Unit extW fsBothW "port" "{}" rfl rfl

/-- Counterexample for C1 as stated: on a filesystem where both the manifest
and the CONTROL file exist but the manifest read fails, `try_load_port`
returns a per-package error instead of terminating the run. -/
theorem c1_counterexample :
    try_load_port extW fsUnreadableW "port" =
      .err { name := "port",
             error := "Failed to load manifest file for port: port/vcpkg.json\n" } ∧
    fsUnreadableW.exists_path "port/vcpkg.json" = true ∧
    fsUnreadableW.exists_path "port/CONTROL" = true :=
  ⟨rfl, rfl, rfl⟩

/-- Claim C10: an empty CONTROL document parses to zero paragraphs, and in
that case `try_load_cached_package` reaches the access to the front of the
empty paragraph sequence (the out-of-bounds marker), with no guarding error
branch. -/
theorem c10_front_of_empty_document :
    parse_paragraphs "" "pkg/CONTROL" = .ok ([] : List Paragraph) ∧
    ∀ (β : Type) (bp : Paragraph → β) (so : β → String) (fs : Filesystem) (pkg : Path)
      (sp : String),
      get_paragraphs fs (pkg ++ "/CONTROL") = .ok ([] : List Paragraph) →
      try_load_cached_package bp so fs pkg sp = none := by
  constructor
  · rfl
  · intro β bp so fs pkg sp h
    simp [try_load_cached_package, h]

/-- Witness for C10 on a filesystem whose CONTROL file is empty. -/
theorem c10_front_of_empty_document_witness :
    try_load_cached_package (fun _ => ()) (fun _ => "s") fsEmptyW "pkg" "s" = none :=
  c10_front_of_empty_document.2 Unit (fun _ => ()) (fun _ => "s") fsEmptyW "pkg" "s" rfl

/-- Claim C6: a triplet-bearing item is accepted by the qualified-specifier
list but rejected by the dependencies list with "triplet specifier not allowed
in this context" at the item's starting location; a triplet-free specifier
converts to a `Dependency` with features defaulting to the empty list and the
platform condition defaulting to none. -/
theorem c6_triplet_rejected_in_dependencies :
    parse_qualified_specifier_list "a:x64-windows" "o" ⟨1, 1⟩ =
      .ok [⟨"a", none, some "x64-windows", none⟩] ∧
    parse_dependencies_list "a:x64-windows" "o" ⟨1, 1⟩ =
      .error "o:1:1: error: triplet specifier not allowed in this context" ∧
    (∀ (s : PState) (pqs : ParsedQualifiedSpecifier) (s' : PState),
       parse_qualified_specifier s = (some pqs, s') → pqs.triplet = none →
       parse_dependency_item s = (some ⟨pqs.name, pqs.features.getD [], pqs.platform⟩, s')) ∧
    (∀ (s : PState) (pqs : ParsedQualifiedSpecifier) (s' : PState) (t : String),
       parse_qualified_specifier s = (some pqs, s') → pqs.triplet = some t →
       parse_dependency_item s =
         (none, add_error_at s' "triplet specifier not allowed in this context" s.row s.col)) := by
  refine ⟨rfl, rfl, ?_, ?_⟩
  · intro s pqs s' h ht
    simp [parse_dependency_item, h, ht]
  · intro s pqs s' t h ht
    simp [parse_dependency_item, h, ht]

/-- Claim C7: `required_field` removes and returns a present field and records
an absent one into the missing list; `error_info` reports an error exactly
when unconsumed or missing fields remain, carrying exactly the remaining field
names and the recorded missing names. -/
theorem c7_field_extraction_protocol :
    (∀ (st : ParagraphParser) (name : String),
       match st.fields.find? (fun f => f.1 == name) with
       | some f =>
           required_field st name =
             (f.2, { st with fields := st.fields.eraseP (fun g => g.1 == name) })
       | none =>
           required_field st name =
             (("", ⟨0, 0⟩), { st with missing_fields := st.missing_fields ++ [name] })) ∧
    (∀ (st : ParagraphParser) (n : String),
       (error_info st n = none ↔ st.fields = [] ∧ st.missing_fields = []) ∧
       (∀ e, error_info st n = some e →
          e.extra_fields = extract_keys st.fields ∧ e.missing_fields = st.missing_fields ∧
          e.name = n ∧ e.expected_types = st.expected_types)) := by
  constructor
  · intro st name
    cases hf : st.fields.find? (fun f => f.1 == name) with
    | none => simp [required_field, remove_field, hf]
    | some f => simp [required_field, remove_field, hf]
  · intro st n
    constructor
    · simp only [error_info]
      split
      · rename_i hcond
        constructor
        · intro h; exact absurd h (by simp)
        · intro ⟨h1, h2⟩
          simp [h1, h2] at hcond
      · rename_i hcond
        simp only [Bool.or_eq_true, Bool.not_eq_true'] at hcond
        push_neg at hcond
        rcases hcond with ⟨h1, h2⟩
        have h1' : st.fields = [] := by
          cases hx : st.fields with
          | nil => rfl
          | cons a l => rw [hx] at h1; simp [List.isEmpty] at h1
        have h2' : st.missing_fields = [] := by
          cases hx : st.missing_fields with
          | nil => rfl
          | cons a l => rw [hx] at h2; simp [List.isEmpty] at h2
        simp [h1', h2']
    · intro e he
      simp only [error_info] at he
      split at he
      · cases he
        exact ⟨rfl, rfl, rfl, rfl⟩
      · cases he

/-- Witness for C7 on the concrete extraction state `stW`. -/
theorem c7_field_extraction_protocol_witness :
    required_field stW "F" = (("v", ⟨1, 4⟩), ⟨[("G", "w", ⟨2, 4⟩)], ["M"], ["T"]⟩) ∧
    ({ name := "S", error := "", extra_fields := ["F", "G"], missing_fields := ["M"],
       expected_types := ["T"] } : ParseControlErrorInfo).extra_fields = extract_keys stW.fields ∧
    (error_info stW "S").isSome = true := by
  refine ⟨?_, ?_, rfl⟩
  · have h := c7_field_extraction_protocol.1 stW "F"
    simpa using h
  · have h := (c7_field_extraction_protocol.2 stW "S").2
      { name := "S", error := "", extra_fields := ["F", "G"], missing_fields := ["M"],
        expected_types := ["T"] } rfl
    exact h.1

/-! ## Batch-loader lemmas -/

lemma overlay_fold_ok {σ : Type} (ext : Externals σ) (fs : Filesystem) (dirs : List Path)
    (acc : LoadResults σ)
    (h : ∀ d ∈ dirs, fatal_of (try_load_port ext fs d) = none) :
    dirs.foldl (load_overlay_step ext fs) (.ok acc) =
      .ok ⟨acc.paragraphs ++ dirs.filterMap (succ_entry ext fs),
           acc.errors ++ dirs.filterMap (err_entry ext fs)⟩ := by
  induction dirs generalizing acc with
  | nil => simp
  | cons d dirs ih =>
    have hd := h d (List.mem_cons_self d dirs)
    have hrest : ∀ x ∈ dirs, fatal_of (try_load_port ext fs x) = none :=
      fun x hx => h x (List.mem_cons_of_mem d hx)
    cases htl : try_load_port ext fs d with
    | fatal m => rw [htl] at hd; simp [fatal_of] at hd
    | err e =>
      have hstep : load_overlay_step ext fs (.ok acc) d =
          .ok ⟨acc.paragraphs, acc.errors ++ [e]⟩ := by
        simp [load_overlay_step, htl]
      rw [List.foldl_cons, hstep, ih _ hrest]
      simp [succ_entry, err_entry, htl]
    | ok scf =>
      have hstep : load_overlay_step ext fs (.ok acc) d =
          .ok ⟨acc.paragraphs ++ [(scf, d)], acc.errors⟩ := by
        simp [load_overlay_step, htl]
      rw [List.foldl_cons, hstep, ih _ hrest]
      simp [succ_entry, err_entry, htl]

lemma overlay_partition_length {σ : Type} (ext : Externals σ) (fs : Filesystem)
    (dirs : List Path)
    (h : ∀ d ∈ dirs, fatal_of (try_load_port ext fs d) = none) :
    (dirs.filterMap (succ_entry ext fs)).length + (dirs.filterMap (err_entry ext fs)).length =
      dirs.length := by
  induction dirs with
  | nil => simp
  | cons d dirs ih =>
    have hd := h d (List.mem_cons_self d dirs)
    have hrest : ∀ x ∈ dirs, fatal_of (try_load_port ext fs x) = none :=
      fun x hx => h x (List.mem_cons_of_mem d hx)
    have := ih hrest
    cases htl : try_load_port ext fs d with
    | fatal m => rw [htl] at hd; simp [fatal_of] at hd
    | err e =>
      simp only [List.filterMap_cons, succ_entry, err_entry, htl, List.length_cons]
      simpa using by omega
    | ok scf =>
      simp only [List.filterMap_cons, succ_entry, err_entry, htl, List.length_cons]
      simpa using by omega

lemma registry_fold_ok {σ : Type} (ext : Externals σ) (fs : Filesystem)
    (registries : RegistrySet) (names : List String) (acc : LoadResults σ)
    (h : ∀ n ∈ names, ∀ p, reg_path registries n = some p →
       fatal_of (try_load_port ext fs p) = none) :
    names.foldl (load_registry_port ext fs registries) (.ok acc) =
      .ok ⟨acc.paragraphs ++ names.filterMap (reg_succ ext fs registries),
           acc.errors ++ names.filterMap (reg_err ext fs registries)⟩ := by
  induction names generalizing acc with
  | nil => simp
  | cons n names ih =>
    have hrest : ∀ x ∈ names, ∀ p, reg_path registries x = some p →
        fatal_of (try_load_port ext fs p) = none :=
      fun x hx p hp => h x (List.mem_cons_of_mem n hx) p hp
    rw [List.foldl_cons]
    cases hrp : reg_path registries n with
    | none =>
      have hstep : load_registry_port ext fs registries (.ok acc) n = .ok acc := by
        cases hreg : registries.registry_for_port n with
        | none => simp [load_registry_port, hreg]
        | some impl =>
          simp only [reg_path, hreg] at hrp
          simp [load_registry_port, hreg, hrp]
      rw [hstep, ih _ hrest]
      simp [reg_succ, reg_err, hrp]
    | some p =>
      have hfat := h n (List.mem_cons_self n names) p hrp
      have hrp' := hrp
      cases hreg : registries.registry_for_port n with
      | none => simp [reg_path, hreg] at hrp'
      | some impl =>
        simp only [reg_path, hreg] at hrp'
        cases htl : try_load_port ext fs p with
        | fatal m => rw [htl] at hfat; simp [fatal_of] at hfat
        | err e =>
          have hstep : load_registry_port ext fs registries (.ok acc) n =
              .ok ⟨acc.paragraphs, acc.errors ++ [e]⟩ := by
            simp [load_registry_port, hreg, hrp', htl]
          rw [hstep, ih _ hrest]
          simp [reg_succ, reg_err, hrp, succ_entry, err_entry, htl]
        | ok scf =>
          have hstep : load_registry_port ext fs registries (.ok acc) n =
              .ok ⟨acc.paragraphs ++ [(scf, p)], acc.errors⟩ := by
            simp [load_registry_port, hreg, hrp', htl]
          rw [hstep, ih _ hrest]
          simp [reg_succ, reg_err, hrp, succ_entry, err_entry, htl]

lemma registry_partition_length {σ : Type} (ext : Externals σ) (fs : Filesystem)
    (registries : RegistrySet) (names : List String)
    (h : ∀ n ∈ names, ∀ p, reg_path registries n = some p →
       fatal_of (try_load_port ext fs p) = none) :
    (names.filterMap (reg_succ ext fs registries)).length +
      (names.filterMap (reg_err ext fs registries)).length =
      (names.filterMap (reg_path registries)).length := by
  induction names with
  | nil => simp
  | cons n names ih =>
    have hrest : ∀ x ∈ names, ∀ p, reg_path registries x = some p →
        fatal_of (try_load_port ext fs p) = none :=
      fun x hx p hp => h x (List.mem_cons_of_mem n hx) p hp
    have := ih hrest
    cases hrp : reg_path registries n with
    | none => simpa [List.filterMap_cons, reg_succ, reg_err, hrp] using this
    | some p =>
      have hfat := h n (List.mem_cons_self n names) p hrp
      cases htl : try_load_port ext fs p with
      | fatal m => rw [htl] at hfat; simp [fatal_of] at hfat
      | err e =>
        simp only [List.filterMap_cons, reg_succ, reg_err, hrp, succ_entry, err_entry, htl,
                   List.length_cons]
        simpa using by omega
      | ok scf =>
        simp only [List.filterMap_cons, reg_succ, reg_err, hrp, succ_entry, err_entry, htl,
                   List.length_cons]
        simpa using by omega

/-- Claim C2: whenever a batch load returns (no fatal stop occurs among the
attempted directories), each attempted package directory contributes exactly
one entry to the returned `LoadResults` — its success entry or its error
entry — the success and error counts sum to the number of attempted
directories, and a per-package failure never aborts the remaining loads (the
whole fold still returns). -/
theorem c2_batch_results_partition :
    ∀ (σ : Type) (ext : Externals σ) (fs : Filesystem),
      (∀ directory : Path,
        (∀ d ∈ overlay_port_dirs fs directory, fatal_of (try_load_port ext fs d) = none) →
        load_overlay_ports_results ext fs directory =
          .ok ⟨(overlay_port_dirs fs directory).filterMap (succ_entry ext fs),
               (overlay_port_dirs fs directory).filterMap (err_entry ext fs)⟩ ∧
        ((overlay_port_dirs fs directory).filterMap (succ_entry ext fs)).length +
          ((overlay_port_dirs fs directory).filterMap (err_entry ext fs)).length =
          (overlay_port_dirs fs directory).length) ∧
      (∀ registries : RegistrySet,
        (∀ n ∈ candidate_ports registries, ∀ p, reg_path registries n = some p →
           fatal_of (try_load_port ext fs p) = none) →
        try_load_all_registry_ports ext fs registries =
          .ok ⟨(candidate_ports registries).filterMap (reg_succ ext fs registries),
               (candidate_ports registries).filterMap (reg_err ext fs registries)⟩ ∧
        ((candidate_ports registries).filterMap (reg_succ ext fs registries)).length +
          ((candidate_ports registries).filterMap (reg_err ext fs registries)).length =
          ((candidate_ports registries).filterMap (reg_path registries)).length) ∧
      (∀ d : Path, fatal_of (try_load_port ext fs d) = none →
        ((succ_entry ext fs d).isSome ∧ err_entry ext fs d = none) ∨
        (succ_entry ext fs d = none ∧ (err_entry ext fs d).isSome)) := by
  intro σ ext fs
  refine ⟨?_, ?_, ?_⟩
  · intro directory h
    constructor
    · have := overlay_fold_ok ext fs (overlay_port_dirs fs directory) ⟨[], []⟩ h
      simpa [load_overlay_ports_results] using this
    · exact overlay_partition_length ext fs _ h
  · intro registries h
    constructor
    · have := registry_fold_ok ext fs registries (candidate_ports registries) ⟨[], []⟩ h
      simpa [try_load_all_registry_ports] using this
    · exact registry_partition_length ext fs registries _ h
  · intro d hd
    cases htl : try_load_port ext fs d with
    | fatal m => rw [htl] at hd; simp [fatal_of] at hd
    | err e => right; simp [succ_entry, err_entry, htl]
    | ok scf => left; simp [succ_entry, err_entry, htl]

/-- Witness for C2: an overlay with one loadable and one broken package
directory, and a registry set resolving the same two directories. -/
theorem c2_batch_results_partition_witness :
    (load_overlay_ports_results extW fsOverlayW "ov" =
      .ok ⟨(overlay_port_dirs fsOverlayW "ov").filterMap (succ_entry extW fsOverlayW),
           (overlay_port_dirs fsOverlayW "ov").filterMap (err_entry extW fsOverlayW)⟩ ∧
     ((overlay_port_dirs fsOverlayW "ov").filterMap (succ_entry extW fsOverlayW)).length +
       ((overlay_port_dirs fsOverlayW "ov").filterMap (err_entry extW fsOverlayW)).length =
       (overlay_port_dirs fsOverlayW "ov").length) ∧
    (try_load_all_registry_ports extW fsOverlayW regsW =
      .ok ⟨(candidate_ports regsW).filterMap (reg_succ extW fsOverlayW regsW),
           (candidate_ports regsW).filterMap (reg_err extW fsOverlayW regsW)⟩ ∧
     ((candidate_ports regsW).filterMap (reg_succ extW fsOverlayW regsW)).length +
       ((candidate_ports regsW).filterMap (reg_err extW fsOverlayW regsW)).length =
       ((candidate_ports regsW).filterMap (reg_path regsW)).length) :=
  ⟨(c2_batch_results_partition Unit extW fsOverlayW).1 "ov" (by decide),
   (c2_batch_results_partition Unit extW fsOverlayW).2.1 regsW (by decide)⟩

/-- Claim C5: a candidate name that no registry owns, or whose owning registry
returns no baseline path, contributes nothing to the batch — removing it from
the candidate list leaves the fold unchanged — and on a concrete registry set
declaring only such a name the batch completes with empty successes and
errors. -/
theorem c5_unowned_names_skipped_silently :
    (∀ (σ : Type) (ext : Externals σ) (fs : Filesystem) (registries : RegistrySet)
       (init : Except String (LoadResults σ)) (pre post : List String) (name : String),
       reg_path registries name = none →
       (pre ++ name :: post).foldl (load_registry_port ext fs registries) init =
         (pre ++ post).foldl (load_registry_port ext fs registries) init) ∧
    candidate_ports regsFooW = ["foo"] ∧
    try_load_all_registry_ports extW fsEmptyW regsFooW = .ok ⟨[], []⟩ := by
  refine ⟨?_, rfl, rfl⟩
  intro σ ext fs registries init pre post name hrp
  induction pre generalizing init with
  | nil =>
    simp only [List.nil_append, List.foldl_cons]
    have hstep : load_registry_port ext fs registries init name = init := by
      cases init with
      | error m => simp [load_registry_port]
      | ok acc =>
        cases hreg : registries.registry_for_port name with
        | none => simp [load_registry_port, hreg]
        | some impl =>
          simp only [reg_path, hreg] at hrp
          simp [load_registry_port, hreg, hrp]
    rw [hstep]
  | cons q pre ih =>
    simp only [List.cons_append, List.foldl_cons]
    exact ih _

/-- Witness for C5: removing the unowned name `foo` from a concrete fold
leaves the result unchanged. -/
theorem c5_unowned_names_skipped_silently_witness :
    (["foo"].foldl (load_registry_port extW fsEmptyW regsFooW)
        (.ok (⟨[], []⟩ : LoadResults Unit))) =
      (([] : List String).foldl (load_registry_port extW fsEmptyW regsFooW)
        (.ok (⟨[], []⟩ : LoadResults Unit))) :=
  c5_unowned_names_skipped_silently.1 Unit extW fsEmptyW regsFooW
    (.ok ⟨[], []⟩) [] [] "foo" rfl

/-! ## Duplicate-field lemmas -/

lemma any_key_false_not_mem (fields : Paragraph) (name : String)
    (h : fields.any (fun f => f.1 == name) = false) :
    name ∉ extract_keys fields := by
  intro hmem
  rw [extract_keys, List.mem_map] at hmem
  obtain ⟨f, hf, hfe⟩ := hmem
  rw [List.any_eq_false] at h
  have := h f hf
  simp [hfe] at this

lemma keys_nodup_append (fields : Paragraph) (n v : String) (rc : TextRowCol)
    (h : (extract_keys fields).Nodup) (hn : n ∉ extract_keys fields) :
    (extract_keys (fields ++ [(n, v, rc)])).Nodup := by
  simp only [extract_keys, List.map_append, List.map_cons, List.map_nil] at h hn ⊢
  rw [List.nodup_append_comm]
  simp only [List.singleton_append, List.nodup_cons]
  exact ⟨hn, h⟩

lemma get_paragraph_keys_nodup (fuel : Nat) :
    ∀ (s : PState) (fields : Paragraph), (extract_keys fields).Nodup →
      (extract_keys (get_paragraph fuel s fields).1).Nodup := by
  induction fuel with
  | zero => intro s fields h; exact h
  | succ fuel ih =>
    intro s fields h
    rw [get_paragraph]
    dsimp only
    split
    · split
      · exact h
      · exact ih _ _ h
    · split
      · exact h
      · split
        · exact h
        · rename_i hany
          have hany' : ¬ (fields.any
              (fun f => f.1 == (⟨(get_fieldname s).1⟩ : String)) = true) := hany
          have hnotin := any_key_false_not_mem fields ⟨(get_fieldname s).1⟩
            (Bool.not_eq_true _ ▸ Bool.of_not_eq_true hany')
          have hnodup1 : ∀ (v : String) (rc : TextRowCol),
              (extract_keys (fields ++ [((⟨(get_fieldname s).1⟩ : String), v, rc)])).Nodup :=
            fun v rc => keys_nodup_append fields _ v rc h hnotin
          split
          · exact hnodup1 _ _
          · exact ih _ _ (hnodup1 _ _)

lemma get_paragraphs_loop_keys_nodup (fuel : Nat) :
    ∀ (s : PState) (acc : List Paragraph), (∀ p ∈ acc, (extract_keys p).Nodup) →
      ∀ p ∈ (get_paragraphs_loop fuel s acc).1, (extract_keys p).Nodup := by
  induction fuel with
  | zero => intro s acc h; exact h
  | succ fuel ih =>
    intro s acc h
    rw [get_paragraphs_loop]
    dsimp only
    split
    · exact h
    · apply ih
      intro p hp
      rcases List.mem_append.mp hp with h1 | h2
      · exact h p h1
      · have hp1 : p = (get_paragraph (s.text.length + 1) s []).1 := by
          simpa using h2
        rw [hp1]
        exact get_paragraph_keys_nodup _ _ [] (by simp [extract_keys])

/-- Claim C8: a successfully parsed document never contains a paragraph with
two entries of the same field name, and a concrete duplicated field fails with
the "duplicate field" grammar error positioned at the second occurrence. -/
theorem c8_duplicate_field_rejected :
    (∀ (str origin : String) (pghs : List Paragraph) (p : Paragraph),
       parse_paragraphs str origin = .ok pghs → p ∈ pghs → (extract_keys p).Nodup) ∧
    parse_paragraphs "A: x\nA: y\n" "t" = .error "t:2:1: error: duplicate field" := by
  constructor
  · intro str origin pghs p hok hp
    unfold parse_paragraphs at hok
    dsimp only at hok
    split at hok
    · cases hok
    · cases hok
      exact get_paragraphs_loop_keys_nodup _ _ [] (by simp) p hp
  · rfl

/-- Witness for C8: the paragraph parsed from a well-formed two-field document
has pairwise distinct field names. -/
theorem c8_duplicate_field_rejected_witness :
    (extract_keys [("A", "x", (⟨1, 4⟩ : TextRowCol)), ("B", "y", ⟨2, 4⟩)]).Nodup :=
  c8_duplicate_field_rejected.1 "A: x\nB: y\n" "t"
    [[("A", "x", ⟨1, 4⟩), ("B", "y", ⟨2, 4⟩)]] _ rfl (by simp)

/-- Claim C4 (amended): a trailing comma makes the whole list parse fail, but
with the error of the item parser invoked at end of input, not the list-level
message; the message "expected ',' or end of text in `<kind>` list" is raised
when an item is followed by something that is neither a comma nor end of
input; and an item failure aborts the whole list parse surfacing that item's
error state. -/
theorem c4_trailing_comma_item_error :
    parse_default_features_list "a," "o" ⟨1, 1⟩ =
      .error "o:1:3: error: expected feature name" ∧
    parse_qualified_specifier_list "a," "o" ⟨1, 1⟩ =
      .error "o:1:3: error: expected package name" ∧
    parse_dependencies_list "a," "o" ⟨1, 1⟩ =
      .error "o:1:3: error: expected package name" ∧
    parse_default_features_list "a b" "o" ⟨1, 1⟩ =
      .error "o:1:3: error: expected ',' or end of text in default features list" ∧
    (∀ (α : Type) (plural : String) (f : PState → Option α × PState) (fuel : Nat)
       (s s' : PState) (acc : List α),
       f s = (none, s') →
       parse_list_loop plural f (fuel + 1) s acc = (none, s')) := by
  refine ⟨rfl, rfl, rfl, rfl, ?_⟩
  intro α plural f fuel s s' acc hf
  rw [parse_list_loop]
  simp [hf]

/-- Witness for C4: the abort clause applied to the feature-name item parser
failing on a bare comma. -/
theorem c4_trailing_comma_item_error_witness :
    parse_list_loop "default features" parse_feature_name 1 ⟨[','], 1, 3, none⟩
        ([] : List String) =
      (none, ⟨[], 1, 3, some ⟨"expected feature name", 1, 3⟩⟩) :=
  c4_trailing_comma_item_error.2.2.2.2 String "default features" parse_feature_name 0
    ⟨[','], 1, 3, none⟩ ⟨[], 1, 3, some ⟨"expected feature name", 1, 3⟩⟩ [] rfl

/-- Counterexample for C4 as stated: on the trailing-comma input `"a,"` the
surfaced error is the item parser's end-of-input error, not
"expected ',' or end of text in default features list". -/
theorem c4_counterexample :
    parse_default_features_list "a," "o" ⟨1, 1⟩ =
      .error "o:1:3: error: expected feature name" ∧
    ("o:1:3: error: expected feature name" ≠
      "o:1:3: error: expected ',' or end of text in default features list") :=
  ⟨rfl, by decide⟩

/-! ## Continuation-line lemmas -/

lemma lineend_free_mem {w : List Char} (h : lineend_free w = true) :
    ∀ x ∈ w, is_lineend_char x = false := by
  intro x hx
  have := (List.all_eq_true.mp h) x hx
  simpa using this

lemma mem_takeWhile {p : Char → Bool} : ∀ {l : List Char} {x : Char},
    x ∈ l.takeWhile p → p x = true := by
  intro l
  induction l with
  | nil => intro x hx; simp [List.takeWhile] at hx
  | cons a l ih =>
    intro x hx
    rw [List.takeWhile_cons] at hx
    by_cases hp : p a
    · rw [if_pos hp] at hx
      rcases List.mem_cons.mp hx with h1 | h2
      · rwa [h1]
      · exact ih h2
    · rw [if_neg hp] at hx
      simp at hx

lemma head?_dropWhile_not {p : Char → Bool} : ∀ {l : List Char} {x : Char},
    (l.dropWhile p).head? = some x → p x = false := by
  intro l
  induction l with
  | nil => intro x hx; simp [List.dropWhile] at hx
  | cons a l ih =>
    intro x hx
    rw [List.dropWhile_cons] at hx
    by_cases hp : p a
    · rw [if_pos hp] at hx
      exact ih hx
    · rw [if_neg hp] at hx
      simp at hx
      rw [← hx]
      simpa using hp

lemma build_conts_length_ge (conts : List (List Char)) (d : List Char) :
    conts.length ≤ (build_conts conts d).length := by
  induction conts with
  | nil => simp [build_conts]
  | cons v rest ih =>
    simp only [build_conts, List.foldr_cons, List.length_cons, List.length_append]
    simp only [build_conts] at ih
    omega

lemma advance_pos_no_newline : ∀ (l : List Char) (r c : Nat),
    (∀ x ∈ l, ¬ x = '\n') → advance_pos l r c = (r, c + l.length) := by
  intro l
  induction l with
  | nil => intro r c _; simp [advance_pos]
  | cons a l ih =>
    intro r c h
    rw [advance_pos_cons, if_neg (h a (List.mem_cons_self a l)),
        if_neg (h a (List.mem_cons_self a l)),
        ih _ _ (fun x hx => h x (List.mem_cons_of_mem a hx))]
    simp
    omega

lemma band_elim {a b : Bool} (h : (a && b) = true) : a = true ∧ b = true := by
  simp at h
  exact h

lemma get_fieldvalue_succ (f : Nat) (s : PState) (acc : List Char) :
    get_fieldvalue (f + 1) s acc =
      let ml := match_until_lineend s
      let acc1 := acc ++ ml.1
      let s1 := skip_newline ml.2
      if cur s1 ≠ some ' ' then (acc1, s1)
      else
        let sp := skip_tabs_spaces s1
        if is_lineend (cur sp.2) then
          (acc1, add_error sp.2 "unexpected end of line, to span a blank line use \"  .\"")
        else get_fieldvalue f sp.2 (acc1 ++ '\n' :: sp.1) := rfl

/-- The continuation behaviour of `get_fieldvalue`: a lineend-free current
line `w` followed by well-formed continuation lines and a terminator produces
the value `w` followed, for each continuation line, by a newline and the whole
line body including its leading whitespace run. -/
lemma get_fieldvalue_conts :
    ∀ (conts : List (List Char)) (fuel : Nat) (w d acc : List Char) (r c : Nat)
      (err : Option PError),
      conts.length < fuel →
      lineend_free w = true →
      (∀ v ∈ conts, good_cont v = true) →
      good_term d = true →
      ∃ r' c',
        get_fieldvalue fuel ⟨w ++ build_conts conts d, r, c, err⟩ acc =
          (acc ++ w ++ conts_value conts, ⟨term_rest d, r', c', err⟩) := by
  intro conts
  induction conts with
  | nil =>
    intro fuel w d acc r c err hfuel hw hc hd
    obtain ⟨f, rfl⟩ : ∃ f, fuel = f + 1 := ⟨fuel - 1, by omega⟩
    rw [get_fieldvalue_succ]
    have hml : match_until_lineend ⟨w ++ build_conts [] d, r, c, err⟩ =
        (w, ⟨build_conts [] d, (advance_pos w r c).1, (advance_pos w r c).2, err⟩) := by
      apply match_while_split
      · rfl
      · intro x hx
        simp [lineend_free_mem hw x hx]
      · intro x hx
        simp only [build_conts, List.foldr_nil] at hx
        cases d with
        | nil => simp at hx
        | cons ch t =>
          simp at hx
          obtain ⟨h1, _⟩ := band_elim hd
          rw [← hx]
          simp [is_lineend_char, h1]
    rw [hml]
    dsimp only
    simp only [build_conts, List.foldr_nil]
    cases d with
    | nil =>
      refine ⟨(advance_pos w r c).1, (advance_pos w r c).2, ?_⟩
      simp [skip_newline, cur, conts_value, build_conts, term_rest]
    | cons ch t =>
      obtain ⟨h1, h2⟩ := band_elim hd
      have hch : ch = '\n' := by simpa using h1
      subst hch
      have hsn : skip_newline
          ⟨'\n' :: t, (advance_pos w r c).1, (advance_pos w r c).2, err⟩ =
          ⟨t, (advance_pos w r c).1 + 1, 1, err⟩ := by
        simp [skip_newline, cur, advance]
      rw [hsn]
      refine ⟨(advance_pos w r c).1 + 1, 1, ?_⟩
      cases t with
      | nil => simp [cur, conts_value, build_conts, term_rest]
      | cons x u =>
        have hx : (x == ' ') = false := by simpa using h2
        have hcur : cur ⟨x :: u, (advance_pos w r c).1 + 1, 1, err⟩ ≠ some ' ' := by
          simp [cur]
          intro heq
          rw [heq] at hx
          simp at hx
        rw [if_pos hcur]
        simp [conts_value, build_conts, term_rest]
  | cons v rest ih =>
    intro fuel w d acc r c err hfuel hw hc hd
    obtain ⟨f, rfl⟩ : ∃ f, fuel = f + 1 := ⟨fuel - 1, by omega⟩
    have hv := hc v (List.mem_cons_self v rest)
    obtain ⟨hvle, hvnt⟩ := band_elim hv
    have hcrest : ∀ x ∈ rest, good_cont x = true :=
      fun x hx => hc x (List.mem_cons_of_mem v hx)
    have hv2ne : v.dropWhile is_tab_space ≠ [] := by
      intro hnil
      rw [List.dropWhile_eq_nil_iff] at hnil
      obtain ⟨x, hxv, hxp⟩ := List.any_eq_true.mp hvnt
      rw [hnil x hxv] at hxp
      simp at hxp
    obtain ⟨x, v2, hv2⟩ : ∃ x v2, v.dropWhile is_tab_space = x :: v2 := by
      cases hvd : v.dropWhile is_tab_space with
      | nil => exact absurd hvd hv2ne
      | cons a l => exact ⟨a, l, rfl⟩
    have hxin : x ∈ v := by
      have : x ∈ v.dropWhile is_tab_space := by rw [hv2]; exact List.mem_cons_self x v2
      exact (List.dropWhile_sublist is_tab_space).subset this
    rw [get_fieldvalue_succ]
    have hbuild : build_conts (v :: rest) d =
        '\n' :: ' ' :: (v ++ build_conts rest d) := by
      simp [build_conts]
    have hml : match_until_lineend ⟨w ++ build_conts (v :: rest) d, r, c, err⟩ =
        (w, ⟨build_conts (v :: rest) d, (advance_pos w r c).1, (advance_pos w r c).2,
             err⟩) := by
      apply match_while_split
      · rfl
      · intro y hy
        simp [lineend_free_mem hw y hy]
      · intro y hy
        rw [hbuild] at hy
        simp at hy
        rw [← hy]
        simp [is_lineend_char]
    rw [hml]
    dsimp only
    rw [hbuild]
    have hsn : skip_newline
        ⟨'\n' :: ' ' :: (v ++ build_conts rest d), (advance_pos w r c).1,
         (advance_pos w r c).2, err⟩ =
        ⟨' ' :: (v ++ build_conts rest d), (advance_pos w r c).1 + 1, 1, err⟩ := by
      simp [skip_newline, cur, advance]
    rw [hsn]
    have hcur : ¬ (cur ⟨' ' :: (v ++ build_conts rest d), (advance_pos w r c).1 + 1, 1,
        err⟩ ≠ some ' ') := by
      simp [cur]
    rw [if_neg hcur]
    have hdecomp : ' ' :: (v ++ build_conts rest d) =
        (' ' :: v.takeWhile is_tab_space) ++ (x :: (v2 ++ build_conts rest d)) := by
      have hv' : v = v.takeWhile is_tab_space ++ (x :: v2) := by
        rw [← hv2]
        exact (@List.takeWhile_append_dropWhile _ is_tab_space v).symm
      calc ' ' :: (v ++ build_conts rest d)
          = ' ' :: ((v.takeWhile is_tab_space ++ (x :: v2)) ++ build_conts rest d) := by
            rw [← hv']
        _ = (' ' :: v.takeWhile is_tab_space) ++ (x :: (v2 ++ build_conts rest d)) := by
            simp
    have hsp : skip_tabs_spaces
        ⟨' ' :: (v ++ build_conts rest d), (advance_pos w r c).1 + 1, 1, err⟩ =
        (' ' :: v.takeWhile is_tab_space,
         ⟨x :: (v2 ++ build_conts rest d),
          (advance_pos (' ' :: v.takeWhile is_tab_space) ((advance_pos w r c).1 + 1) 1).1,
          (advance_pos (' ' :: v.takeWhile is_tab_space) ((advance_pos w r c).1 + 1) 1).2,
          err⟩) := by
      apply match_while_split
      · exact hdecomp
      · intro y hy
        rcases List.mem_cons.mp hy with h1 | h2
        · rw [h1]; rfl
        · exact mem_takeWhile h2
      · intro y hy
        simp at hy
        rw [← hy]
        apply head?_dropWhile_not
        rw [hv2]
        rfl
    rw [hsp]
    dsimp only
    have hxle : is_lineend_char x = false := lineend_free_mem hvle x hxin
    have hle : is_lineend (cur ⟨x :: (v2 ++ build_conts rest d),
        (advance_pos (' ' :: v.takeWhile is_tab_space) ((advance_pos w r c).1 + 1) 1).1,
        (advance_pos (' ' :: v.takeWhile is_tab_space) ((advance_pos w r c).1 + 1) 1).2,
        err⟩) = false := by
      simp [cur, is_lineend, hxle]
    rw [hle]
    simp only [Bool.false_eq_true, if_false]
    have hv2le : lineend_free (x :: v2) = true := by
      simp only [lineend_free, List.all_eq_true] at hvle ⊢
      intro y hy
      apply hvle
      have : y ∈ v.dropWhile is_tab_space := by rw [hv2]; exact hy
      exact (List.dropWhile_sublist is_tab_space).subset this
    have hfe : rest.length < f := by
      simp only [List.length_cons] at hfuel
      omega
    obtain ⟨r', c', hrec⟩ := ih f (x :: v2) d
      ((acc ++ w) ++ '\n' :: ' ' :: v.takeWhile is_tab_space)
      (advance_pos (' ' :: v.takeWhile is_tab_space) ((advance_pos w r c).1 + 1) 1).1
      (advance_pos (' ' :: v.takeWhile is_tab_space) ((advance_pos w r c).1 + 1) 1).2
      err hfe hv2le hcrest hd
    refine ⟨r', c', ?_⟩
    rw [show (x :: (v2 ++ build_conts rest d)) = (x :: v2) ++ build_conts rest d by simp]
    rw [hrec]
    have hv' : v = v.takeWhile is_tab_space ++ (x :: v2) := by
      rw [← hv2]
      exact (@List.takeWhile_append_dropWhile _ is_tab_space v).symm
    simp only [Prod.mk.injEq]
    refine ⟨?_, trivial⟩
    rw [show conts_value (v :: rest) = '\n' :: ' ' :: (v ++ conts_value rest) by
      simp [conts_value, build_conts]]
    nth_rewrite 2 [hv']
    simp

lemma lineend_free_no_newline {w : List Char} (h : lineend_free w = true) :
    ∀ x ∈ w, ¬ x = '\n' := by
  intro x hx heq
  have := lineend_free_mem h x hx
  rw [heq] at this
  simp [is_lineend_char] at this

lemma lineend_not_tab_space {y : Char} (h : is_lineend_char y = true) :
    is_tab_space y = false := by
  simp [is_lineend_char] at h
  rcases h with h | h <;> rw [h] <;> rfl

lemma head_not_tab_space (w rest : List Char)
    (hwh : ∀ x, w.head? = some x → is_tab_space x = false)
    (hrest : ∀ x, rest.head? = some x → is_tab_space x = false) :
    ∀ x, (w ++ rest).head? = some x → is_tab_space x = false := by
  intro x hx
  cases w with
  | nil => exact hrest x hx
  | cons a l =>
    simp at hx
    rw [← hx]
    exact hwh a rfl

lemma build_conts_head_not_tab_space (conts : List (List Char)) :
    ∀ x, (build_conts conts ['\n']).head? = some x → is_tab_space x = false := by
  intro x hx
  cases conts with
  | nil =>
    simp [build_conts] at hx
    rw [← hx]
    rfl
  | cons v r =>
    simp [build_conts] at hx
    rw [← hx]
    rfl

/-- Claim C3 (amended), value half: a field line `A: w` followed by
well-formed continuation lines parses so that each continuation line
contributes a newline **plus its whole whitespace-led body** (the single
leading space and any further tabs/spaces are kept in the value). -/
lemma c3_continuation_value (w : List Char) (conts : List (List Char))
    (hw : lineend_free w = true)
    (hwh : ∀ x, w.head? = some x → is_tab_space x = false)
    (hc : ∀ v ∈ conts, good_cont v = true) :
    parse_paragraphs ⟨'A' :: ':' :: ' ' :: (w ++ build_conts conts ['\n'])⟩ "o" =
      .ok [[("A", ⟨w ++ conts_value conts⟩, ⟨1, 4⟩)]] := by
  have hfuel : conts.length < (w ++ build_conts conts ['\n']).length + 1 := by
    have := build_conts_length_ge conts ['\n']
    simp only [List.length_append]
    omega
  obtain ⟨r', c', hval⟩ := get_fieldvalue_conts conts
    ((w ++ build_conts conts ['\n']).length + 1) w ['\n'] [] 1 4 none hfuel hw hc rfl
  have hhead2 : ∀ x, (w ++ build_conts conts ['\n']).head? = some x →
      is_tab_space x = false :=
    head_not_tab_space w _ hwh (build_conts_head_not_tab_space conts)
  have hsts : skip_tabs_spaces ⟨' ' :: (w ++ build_conts conts ['\n']), 1, 3, none⟩ =
      ([' '], ⟨w ++ build_conts conts ['\n'], 1, 4, none⟩) := by
    have h := match_while_split is_tab_space
      ⟨' ' :: (w ++ build_conts conts ['\n']), 1, 3, none⟩ [' ']
      (w ++ build_conts conts ['\n']) rfl
      (by intro x hx; simp at hx; rw [hx]; rfl) hhead2
    simpa [skip_tabs_spaces, advance_pos] using h
  have hstep : get_paragraph
      (('A' :: ':' :: ' ' :: (w ++ build_conts conts ['\n'])).length + 1)
      ⟨'A' :: ':' :: ' ' :: (w ++ build_conts conts ['\n']), 1, 1, none⟩ [] =
      (let sp := skip_tabs_spaces ⟨' ' :: (w ++ build_conts conts ['\n']), 1, 3, none⟩
       let fv := get_fieldvalue (sp.2.text.length + 1) sp.2 []
       let fields1 : Paragraph := [(("A" : String), (⟨fv.1⟩ : String),
         (⟨sp.2.row, sp.2.col⟩ : TextRowCol))]
       if is_lineend (cur fv.2) then (fields1, fv.2)
       else get_paragraph ('A' :: ':' :: ' ' :: (w ++ build_conts conts ['\n'])).length
         fv.2 fields1) := rfl
  have hgp : get_paragraph
      (('A' :: ':' :: ' ' :: (w ++ build_conts conts ['\n'])).length + 1)
      ⟨'A' :: ':' :: ' ' :: (w ++ build_conts conts ['\n']), 1, 1, none⟩ [] =
      ([(("A" : String), (⟨w ++ conts_value conts⟩ : String), (⟨1, 4⟩ : TextRowCol))],
       ⟨[], r', c', none⟩) := by
    rw [hstep]
    dsimp only
    rw [hsts]
    dsimp only
    rw [hval]
    dsimp only [cur, is_lineend, term_rest]
    simp
  have hloop : get_paragraphs_loop
      (('A' :: ':' :: ' ' :: (w ++ build_conts conts ['\n'])).length + 1)
      ⟨'A' :: ':' :: ' ' :: (w ++ build_conts conts ['\n']), 1, 1, none⟩ [] =
      ([[(("A" : String), (⟨w ++ conts_value conts⟩ : String), (⟨1, 4⟩ : TextRowCol))]],
       ⟨[], r', c', none⟩) := by
    rw [get_paragraphs_loop]
    dsimp only
    rw [if_neg (by simp [at_eof])]
    rw [hgp]
    rfl
  show parse_paragraphs _ "o" = _
  unfold parse_paragraphs
  dsimp only
  rw [show skip_whitespace
      ⟨(⟨'A' :: ':' :: ' ' :: (w ++ build_conts conts ['\n'])⟩ : String).data, 1, 1,
       none⟩ =
      ⟨'A' :: ':' :: ' ' :: (w ++ build_conts conts ['\n']), 1, 1, none⟩ from rfl]
  rw [hloop]

/-- Claim C3 (amended), error half: a continuation line that is blank after
its whitespace run is the grammar error "unexpected end of line, to span a
blank line use \"  .\"" — the message naming the two-space-and-dot sequence —
reported at the line end. -/
lemma c3_blank_continuation_error (w ws d2 : List Char)
    (hw : lineend_free w = true)
    (hwh : ∀ x, w.head? = some x → is_tab_space x = false)
    (hws : ∀ x ∈ ws, is_tab_space x = true)
    (hd2 : is_lineend d2.head? = true) :
    parse_paragraphs ⟨'A' :: ':' :: ' ' :: (w ++ '\n' :: ' ' :: (ws ++ d2))⟩ "o" =
      .error (format_error "o"
        ⟨"unexpected end of line, to span a blank line use \"  .\"", 2,
         ws.length + 2⟩) := by
  have hwnl : ∀ x ∈ w, ¬ x = '\n' := lineend_free_no_newline hw
  have hhead2 : ∀ x, (w ++ '\n' :: ' ' :: (ws ++ d2)).head? = some x →
      is_tab_space x = false := by
    apply head_not_tab_space w _ hwh
    intro x hx
    simp at hx
    rw [← hx]
    rfl
  have hsts : skip_tabs_spaces ⟨' ' :: (w ++ '\n' :: ' ' :: (ws ++ d2)), 1, 3, none⟩ =
      ([' '], ⟨w ++ '\n' :: ' ' :: (ws ++ d2), 1, 4, none⟩) := by
    have h := match_while_split is_tab_space
      ⟨' ' :: (w ++ '\n' :: ' ' :: (ws ++ d2)), 1, 3, none⟩ [' ']
      (w ++ '\n' :: ' ' :: (ws ++ d2)) rfl
      (by intro x hx; simp at hx; rw [hx]; rfl) hhead2
    simpa [skip_tabs_spaces, advance_pos] using h
  have hml : match_until_lineend ⟨w ++ '\n' :: ' ' :: (ws ++ d2), 1, 4, none⟩ =
      (w, ⟨'\n' :: ' ' :: (ws ++ d2), 1, 4 + w.length, none⟩) := by
    have h := match_while_split (fun c => !is_lineend_char c)
      ⟨w ++ '\n' :: ' ' :: (ws ++ d2), 1, 4, none⟩ w ('\n' :: ' ' :: (ws ++ d2)) rfl
      (by intro x hx; simp [lineend_free_mem hw x hx])
      (by intro x hx; simp at hx; rw [← hx]; rfl)
    rw [advance_pos_no_newline w 1 4 hwnl] at h
    exact h
  have hsts2 : skip_tabs_spaces ⟨' ' :: (ws ++ d2), 2, 1, none⟩ =
      (' ' :: ws, ⟨d2, 2, ws.length + 2, none⟩) := by
    have h := match_while_split is_tab_space ⟨' ' :: (ws ++ d2), 2, 1, none⟩
      (' ' :: ws) d2 (by simp)
      (by
        intro x hx
        rcases List.mem_cons.mp hx with h1 | h2
        · rw [h1]; rfl
        · exact hws x h2)
      (by
        intro x hx
        apply lineend_not_tab_space
        rw [hx] at hd2
        exact hd2)
    rw [advance_pos_no_newline (' ' :: ws) 2 1 (by
      intro x hx heq
      rcases List.mem_cons.mp hx with h1 | h2
      · rw [heq] at h1; cases h1
      · have := hws x h2
        rw [heq] at this
        cases this)] at h
    simp only [List.length_cons] at h
    rw [show 1 + (ws.length + 1) = ws.length + 2 from by omega] at h
    exact h
  have hfv : get_fieldvalue ((w ++ '\n' :: ' ' :: (ws ++ d2)).length + 1)
      ⟨w ++ '\n' :: ' ' :: (ws ++ d2), 1, 4, none⟩ [] =
      (w, ⟨[], 2, ws.length + 2,
        some ⟨"unexpected end of line, to span a blank line use \"  .\"", 2,
              ws.length + 2⟩⟩) := by
    rw [get_fieldvalue_succ]
    simp only [hml]
    rw [show skip_newline ⟨'\n' :: ' ' :: (ws ++ d2), 1, 4 + w.length, none⟩ =
        ⟨' ' :: (ws ++ d2), 2, 1, none⟩ by simp [skip_newline, cur, advance]]
    rw [if_neg (by simp [cur])]
    simp only [hsts2]
    rw [if_pos (by
      cases hd : d2 with
      | nil => simp [cur, is_lineend]
      | cons y u =>
        rw [hd] at hd2
        simp [cur, is_lineend]
        simpa using hd2)]
    simp [add_error, add_error_at]
  have hstep : get_paragraph
      (('A' :: ':' :: ' ' :: (w ++ '\n' :: ' ' :: (ws ++ d2))).length + 1)
      ⟨'A' :: ':' :: ' ' :: (w ++ '\n' :: ' ' :: (ws ++ d2)), 1, 1, none⟩ [] =
      (let sp := skip_tabs_spaces ⟨' ' :: (w ++ '\n' :: ' ' :: (ws ++ d2)), 1, 3, none⟩
       let fv := get_fieldvalue (sp.2.text.length + 1) sp.2 []
       let fields1 : Paragraph := [(("A" : String), (⟨fv.1⟩ : String),
         (⟨sp.2.row, sp.2.col⟩ : TextRowCol))]
       if is_lineend (cur fv.2) then (fields1, fv.2)
       else get_paragraph
         ('A' :: ':' :: ' ' :: (w ++ '\n' :: ' ' :: (ws ++ d2))).length fv.2 fields1) :=
    rfl
  have hgp : get_paragraph
      (('A' :: ':' :: ' ' :: (w ++ '\n' :: ' ' :: (ws ++ d2))).length + 1)
      ⟨'A' :: ':' :: ' ' :: (w ++ '\n' :: ' ' :: (ws ++ d2)), 1, 1, none⟩ [] =
      ([(("A" : String), (⟨w⟩ : String), (⟨1, 4⟩ : TextRowCol))],
       ⟨[], 2, ws.length + 2,
        some ⟨"unexpected end of line, to span a blank line use \"  .\"", 2,
              ws.length + 2⟩⟩) := by
    rw [hstep]
    dsimp only
    rw [hsts]
    dsimp only
    rw [hfv]
    dsimp only [cur, is_lineend]
    simp
  have hloop : get_paragraphs_loop
      (('A' :: ':' :: ' ' :: (w ++ '\n' :: ' ' :: (ws ++ d2))).length + 1)
      ⟨'A' :: ':' :: ' ' :: (w ++ '\n' :: ' ' :: (ws ++ d2)), 1, 1, none⟩ [] =
      ([[(("A" : String), (⟨w⟩ : String), (⟨1, 4⟩ : TextRowCol))]],
       ⟨[], 2, ws.length + 2,
        some ⟨"unexpected end of line, to span a blank line use \"  .\"", 2,
              ws.length + 2⟩⟩) := by
    rw [get_paragraphs_loop]
    dsimp only
    rw [if_neg (by simp [at_eof])]
    rw [hgp]
    rfl
  unfold parse_paragraphs
  dsimp only
  rw [show skip_whitespace
      ⟨(⟨'A' :: ':' :: ' ' :: (w ++ '\n' :: ' ' :: (ws ++ d2))⟩ : String).data, 1, 1,
       none⟩ =
      ⟨'A' :: ':' :: ' ' :: (w ++ '\n' :: ' ' :: (ws ++ d2)), 1, 1, none⟩ from rfl]
  rw [hloop]

/-- Claim C3 (amended): a continuation line contributes a newline followed by
the whole of its leading whitespace run and remainder (the continuation-marker
whitespace **is** part of the value), and a continuation line that is blank
after the whitespace run is a grammar error whose message names the
three-character sequence `"  ."` (two spaces and a dot). -/
theorem c3_continuation_whitespace_kept :
    (∀ (w : List Char) (conts : List (List Char)),
       lineend_free w = true →
       (∀ x, w.head? = some x → is_tab_space x = false) →
       (∀ v ∈ conts, good_cont v = true) →
       parse_paragraphs ⟨'A' :: ':' :: ' ' :: (w ++ build_conts conts ['\n'])⟩ "o" =
         .ok [[("A", ⟨w ++ conts_value conts⟩, ⟨1, 4⟩)]]) ∧
    (∀ (w ws d2 : List Char),
       lineend_free w = true →
       (∀ x, w.head? = some x → is_tab_space x = false) →
       (∀ x ∈ ws, is_tab_space x = true) →
       is_lineend d2.head? = true →
       parse_paragraphs ⟨'A' :: ':' :: ' ' :: (w ++ '\n' :: ' ' :: (ws ++ d2))⟩ "o" =
         .error (format_error "o"
           ⟨"unexpected end of line, to span a blank line use \"  .\"", 2,
            ws.length + 2⟩)) :=
  ⟨c3_continuation_value, c3_blank_continuation_error⟩

/-- Witness for C3 at the concrete inputs `"A: x\n ab\n"` (continuation kept
with its whitespace) and `"A: x\n \n"` (blank continuation error at 2:2). -/
theorem c3_continuation_whitespace_kept_witness :
    parse_paragraphs ⟨'A' :: ':' :: ' ' :: (['x'] ++ build_conts [['a', 'b']] ['\n'])⟩
        "o" = .ok [[("A", ⟨['x'] ++ conts_value [['a', 'b']]⟩, ⟨1, 4⟩)]] ∧
    parse_paragraphs
        ⟨'A' :: ':' :: ' ' :: (['x'] ++ '\n' :: ' ' :: (([] : List Char) ++ ['\n']))⟩
        "o" = .error (format_error "o"
          ⟨"unexpected end of line, to span a blank line use \"  .\"", 2,
           ([] : List Char).length + 2⟩) :=
  ⟨c3_continuation_whitespace_kept.1 ['x'] [['a', 'b']] (by decide) (by decide) (by decide),
   c3_continuation_whitespace_kept.2 ['x'] [] ['\n'] (by decide) (by decide) (by decide)
     (by decide)⟩

/-- Counterexample for C3 as stated: the continuation `" y"` yields the value
`"x\n y"` — the marker space is kept, not dropped — and the blank-continuation
message names `"  ."`, two spaces and a dot. -/
theorem c3_counterexample :
    parse_paragraphs "A: x\n y\n" "o" = .ok [[("A", "x\n y", ⟨1, 4⟩)]] ∧
    ("x\n y" : String) ≠ "x\ny" ∧
    parse_paragraphs "A: x\n \n" "o" =
      .error "o:2:2: error: unexpected end of line, to span a blank line use \"  .\"" :=
  ⟨rfl, by decide, rfl⟩

/-- Witness for C6: the triplet-free conversion clause applied to the concrete
item `"b[x] (win)"`. -/
theorem c6_triplet_rejected_in_dependencies_witness :
    parse_dependency_item ⟨"b[x] (win)".data, 1, 1, none⟩ =
      (some ⟨"b", ["x"], some "win"⟩, ⟨[], 1, 11, none⟩) :=
  c6_triplet_rejected_in_dependencies.2.2.1 ⟨"b[x] (win)".data, 1, 1, none⟩
    ⟨"b", some ["x"], none, some "win"⟩ ⟨[], 1, 11, none⟩ rfl rfl

end Vcpkg
